import Mathlib

/-! ## Credit-note fee-tree serialization and validation

Shallow embedding of the credit-note fee-tree core of the repository:

* `serializeCreditNoteInput` (serializer) — from `src/unnamed/part_000`;
* `simpleFeeSchema` / `generateFeesSchema` (validator-ruleset generation) —
  from `src/src/formValidation/feesSchema.ts`;
* `validateFees` — the validation semantics of the generated `yup` ruleset
  (external library behavior, modelled from its documented semantics);
* `serializeAmount` / `deserializeAmount` / `getCurrencyPrecision` — the
  amount-conversion collaborators (`~/core/serializers/serializeAmount`),
  repository code that is not part of the provided sources, modelled from
  the specification.

JavaScript `number` values are modelled as exact rationals `ℚ`; JS objects
(`Record<string, T>`) are modelled as insertion-ordered association lists
`List (String × T)` (JS object keys are unique and iteration follows
insertion order).  `undefined`-able nested maps are modelled with `Option`,
and the fact that `Object.keys(undefined)` throws a `TypeError` at runtime
is modelled by returning `Except.error` from the functions that perform
that call.
-/

/-- Modelled from the spec: the currency enumeration (generated GraphQL code,
not in the provided sources).  Only the minor-unit precision of a currency is
observable in this core, so one representative two-decimal currency (`usd`)
and one three-decimal currency (`bhd`) suffice. -/
inductive CurrencyEnum where
  | usd
  | bhd
deriving DecidableEq, Repr

/-- Modelled from the spec: the currency-precision table
(`~/core/serializers/serializeAmount`, not in the provided sources): most
currencies use 2 decimal digits of minor-unit precision, three-decimal
currencies use 3. -/
def getCurrencyPrecision : CurrencyEnum → ℕ
  | .usd => 2
  | .bhd => 3

/-- Modelled from the spec: `serializeAmount` from
`~/core/serializers/serializeAmount` (not in the provided sources).  Converts
a major-unit amount to integer minor units:
`round(amount * 10 ^ precision(currency))`. -/
def serializeAmount (amount : ℚ) (currency : CurrencyEnum) : ℤ :=
  round (amount * (10 : ℚ) ^ getCurrencyPrecision currency)

/-- Modelled from the spec: `deserializeAmount` from
`~/core/serializers/serializeAmount` (not in the provided sources).  Converts
a minor-unit amount back to major units by dividing by the currency's
precision. -/
def deserializeAmount (amount : ℚ) (currency : CurrencyEnum) : ℚ :=
  amount / (10 : ℚ) ^ getCurrencyPrecision currency

/-- A terminal fee entry of the fee tree (`FromFee` in
`~/components/creditNote/types`): an external fee id, the selection state,
the user-entered amount in major units, and the server-provided upper bound
in minor units. -/
structure FromFee where
  id : String
  checked : Bool
  value : ℚ
  maxAmount : ℚ
deriving DecidableEq, Repr

/-- The grouped variant of a fee-group (`GroupedFee`): a mapping of leaf fees
keyed by sub-group identifier.  The inner map is `Option`al because the UI
may leave it unpopulated (`undefined` at runtime). -/
structure GroupedFee where
  grouped : Option (List (String × FromFee))
deriving DecidableEq, Repr

/-- A fee-group node: either a bare leaf (its `checked` field is a boolean at
runtime) or a grouped wrapper (no boolean `checked` field).  The code
discriminates with `typeof child.checked === 'boolean'`; this inductive
models the outcome of that runtime test. -/
inductive FeeChild where
  | leaf (fee : FromFee)
  | grouped (g : GroupedFee)
deriving DecidableEq, Repr

/-- A sub-invoice group: its mapping of fee-groups.  `Option`al for the same
reason as `GroupedFee.grouped`. -/
structure SubInvoiceFees where
  fees : Option (List (String × FeeChild))
deriving DecidableEq, Repr

/-- The type `FeesPerInvoice`: the fee tree, keyed by sub-invoice identifier. -/
abbrev FeesPerInvoice := List (String × SubInvoiceFees)

/-- The enumeration `CreditTypeEnum` from `~/components/creditNote/types`. -/
inductive CreditTypeEnum where
  | credit
  | refund
deriving DecidableEq, Repr

/-- One pay-back allocation entry (`{type, value}`). -/
structure PayBackDetails where
  type : CreditTypeEnum
  value : ℚ
deriving DecidableEq, Repr

/-- The type `CreditNoteForm`: the form state handed to the serializer.  `reason` is
kept as a plain identifier string (it is passed through unchanged). -/
structure CreditNoteForm where
  reason : String
  description : Option String
  payBack : Option (List PayBackDetails)
  fees : Option FeesPerInvoice
  addOnFee : Option FromFee
deriving DecidableEq, Repr

/-- The type `CreditNoteItemInput` of the request payload: `{feeId, amountCents}`. -/
structure CreditNoteItemInput where
  feeId : String
  amountCents : ℤ
deriving DecidableEq, Repr

/-- The type `CreateCreditNoteInput`: the request payload built by the serializer. -/
structure CreateCreditNoteInput where
  invoiceId : String
  reason : String
  description : Option String
  creditAmountCents : ℤ
  refundAmountCents : ℤ
  items : List CreditNoteItemInput
deriving DecidableEq, Repr

/-- The runtime error produced by `Object.keys(undefined)` in JavaScript. -/
def typeErrorMessage : String := "TypeError: Cannot convert undefined or null to object"

/-- The item built for one selected leaf:
`{feeId: fee.id, amountCents: serializeAmount(fee.value, currency)}`
(`part_000` lines 61-64 and 79-82). -/
def toCreditNoteItem (currency : CurrencyEnum) (fee : FromFee) : CreditNoteItemInput :=
  ⟨fee.id, serializeAmount fee.value currency⟩

/-- The inner `reduce` over a grouped fee-group (`part_000` lines 72-84):
`!fee.checked ? feeAcc : [...feeAcc, {feeId: fee.id, amountCents: ...}]`. -/
def serializeGroupedItems (currency : CurrencyEnum)
    (grouped : List (String × FromFee)) : List CreditNoteItemInput :=
  grouped.foldl
    (fun feeAcc kv =>
      if kv.2.checked then feeAcc ++ [toCreditNoteItem currency kv.2] else feeAcc)
    []

/-- The body of the per-fee-group branch (`part_000` lines 56-85): a bare
leaf (`typeof child.checked === 'boolean'`) contributes its item iff checked;
otherwise `Object.keys(child?.grouped)` is taken, which throws a `TypeError`
when `grouped` is `undefined`. -/
def serializeChildItems (currency : CurrencyEnum) :
    FeeChild → Except String (List CreditNoteItemInput)
  | .leaf fee =>
      .ok (if fee.checked then [toCreditNoteItem currency fee] else [])
  | .grouped g =>
      match g.grouped with
      | none => .error typeErrorMessage
      | some grouped => .ok (serializeGroupedItems currency grouped)

/-- The `reduce` over one sub-invoice group's fee-groups (`part_000` lines
53-86), walking children left to right and concatenating their items; the
first child that throws aborts the whole serialization. -/
def serializeSubItems (currency : CurrencyEnum) :
    List (String × FeeChild) → Except String (List CreditNoteItemInput)
  | [] => .ok []
  | kv :: rest =>
      match serializeChildItems currency kv.2 with
      | .error e => .error e
      | .ok items =>
          match serializeSubItems currency rest with
          | .error e => .error e
          | .ok restItems => .ok (items ++ restItems)

/-- The outer `reduce` over the sub-invoice groups (`part_000` lines 48-88).
`Object.keys(subChild?.fees)` throws a `TypeError` when the `fees` map of a
sub-invoice group is `undefined`. -/
def serializeFeesItems (currency : CurrencyEnum) :
    FeesPerInvoice → Except String (List CreditNoteItemInput)
  | [] => .ok []
  | kv :: rest =>
      match kv.2.fees with
      | none => .error typeErrorMessage
      | some subChilds =>
          match serializeSubItems currency subChilds with
          | .error e => .error e
          | .ok items =>
              match serializeFeesItems currency rest with
              | .error e => .error e
              | .ok restItems => .ok (items ++ restItems)

/-- The add-on prefix of `items` (`part_000` lines 40-47): one item when
`addOnFee?.value` is truthy (for a rational, truthy means nonzero), nothing
otherwise. -/
def serializeAddOnItems (addOnFee : Option FromFee) (currency : CurrencyEnum) :
    List CreditNoteItemInput :=
  match addOnFee with
  | some a => if a.value = 0 then [] else [⟨a.id, serializeAmount a.value currency⟩]
  | none => []

/-- The pay-back conversion (`part_000` lines 27-38):
`!payBack ? 0 : serializeAmount(payBack.find(p => p.type === t)?.value || 0, currency)`.
`?.value || 0` maps an absent entry (and a present `0` value) to `0`, which
is `Option.getD 0` on rationals; the extra `|| 0` after `serializeAmount` on
the refund side is the identity on an integer result. -/
def payBackAmount (payBack : Option (List PayBackDetails)) (t : CreditTypeEnum)
    (currency : CurrencyEnum) : ℤ :=
  match payBack with
  | none => 0
  | some pb =>
      serializeAmount (((pb.find? fun p => p.type == t).map PayBackDetails.value).getD 0)
        currency

/-- The serializer `serializeCreditNoteInput` (`src/unnamed/part_000` lines 16-91).
`fees = []` is the destructuring default for an absent `fees` map.  The
`items` array is the optional add-on item followed by the tree-walk items;
a `TypeError` thrown during the tree walk aborts the whole call. -/
def serializeCreditNoteInput (invoiceId : String) (formValues : CreditNoteForm)
    (currency : CurrencyEnum) : Except String CreateCreditNoteInput :=
  match serializeFeesItems currency (formValues.fees.getD []) with
  | .error e => .error e
  | .ok treeItems =>
      .ok
        { invoiceId := invoiceId
          reason := formValues.reason
          description := formValues.description
          creditAmountCents := payBackAmount formValues.payBack CreditTypeEnum.credit currency
          refundAmountCents := payBackAmount formValues.payBack CreditTypeEnum.refund currency
          items := serializeAddOnItems formValues.addOnFee currency ++ treeItems }

/-! ## Validator ruleset (`src/src/formValidation/feesSchema.ts`) -/

/-- The epsilon of the leaf rule's minimum: the literal `0.0000000000000001`
(= 10⁻¹⁶) from `feesSchema.ts` line 21. -/
def minZeroEpsilon : ℚ := 1 / 10 ^ 16

/-- The leaf rule produced by `simpleFeeSchema` (`feesSchema.ts` lines
13-26), reduced to its one datum: the upper bound for `value`, which `yup`'s
`.max(deserializeAmount(maxAmount, currency), ...)` computes at
ruleset-generation time.  The `checked: boolean()` field and the fixed
`.min(0.0000000000000001)` carry no per-leaf data. -/
structure SimpleFeeRule where
  bound : ℚ
deriving DecidableEq, Repr

/-- The rule `simpleFeeSchema(maxAmount, currency)` (`feesSchema.ts` lines 13-26). -/
def simpleFeeSchema (maxAmount : ℚ) (currency : CurrencyEnum) : SimpleFeeRule :=
  ⟨deserializeAmount maxAmount currency⟩

/-- One fee-group entry of the generated ruleset: a bare leaf rule, or a
grouped wrapper (`object().shape({grouped: object().shape({...})})`) holding
one leaf rule per sub-group key. -/
inductive FeeRule where
  | simple (rule : SimpleFeeRule)
  | groupedRule (rules : List (String × SimpleFeeRule))
deriving DecidableEq, Repr

/-- The nested ruleset generated by `generateFeesSchema`: one entry per
sub-invoice key, holding one `FeeRule` per fee-group key. -/
abbrev FeesSchema := List (String × List (String × FeeRule))

/-- The per-fee-group branch of `generateFeesSchema` (`feesSchema.ts` lines
40-72).  The `_get(formikInitialFees, `${subKey}.fees.${feeGroupKey}...maxAmount`)`
calls re-read the `maxAmount` of the very entry being iterated (JS object
keys are unique, so the path lookup lands on the same entry): they are the
iterated child's `maxAmount`.  `Object.keys(grouped)` throws a `TypeError`
when the `grouped` map of a grouped fee-group is `undefined`. -/
def generateChildRule (currency : CurrencyEnum) : FeeChild → Except String FeeRule
  | .leaf fee => .ok (.simple (simpleFeeSchema fee.maxAmount currency))
  | .grouped g =>
      match g.grouped with
      | none => .error typeErrorMessage
      | some grouped =>
          .ok (.groupedRule
            (grouped.map fun kv => (kv.1, simpleFeeSchema kv.2.maxAmount currency)))

/-- The `reduce` over one sub-invoice group's fee-groups (`feesSchema.ts`
lines 37-73), building the rule object in iteration order. -/
def generateSubSchema (currency : CurrencyEnum) :
    List (String × FeeChild) → Except String (List (String × FeeRule))
  | [] => .ok []
  | kv :: rest =>
      match generateChildRule currency kv.2 with
      | .error e => .error e
      | .ok rule =>
          match generateSubSchema currency rest with
          | .error e => .error e
          | .ok restRules => .ok ((kv.1, rule) :: restRules)

/-- The generator `generateFeesSchema` (`feesSchema.ts` lines 28-79).  The top-level
`formikInitialFees || {}` default is the caller's concern (the argument here
is the tree itself); `Object.keys(subChilds)` throws a `TypeError` when a
sub-invoice group's `fees` map is `undefined`. -/
def generateFeesSchema (formikInitialFees : FeesPerInvoice) (currency : CurrencyEnum) :
    Except String FeesSchema :=
  walk formikInitialFees
where
  walk : FeesPerInvoice → Except String FeesSchema
    | [] => .ok []
    | kv :: rest =>
        match kv.2.fees with
        | none => .error typeErrorMessage
        | some subChilds =>
            match generateSubSchema currency subChilds with
            | .error e => .error e
            | .ok subRules =>
                match walk rest with
                | .error e => .error e
                | .ok restRules => .ok ((kv.1, subRules) :: restRules)

/-- The rule `generateChildRule` produces when it does not throw, as a total
function (`Option.getD []` stands for the populated map). -/
def pureChildRule (currency : CurrencyEnum) : FeeChild → FeeRule
  | .leaf fee => .simple (simpleFeeSchema fee.maxAmount currency)
  | .grouped g =>
      .groupedRule
        ((g.grouped.getD []).map fun kv => (kv.1, simpleFeeSchema kv.2.maxAmount currency))

/-- The total counterpart of `generateFeesSchema` on trees whose nested maps
are all populated (see `pureChildRule`). -/
def pureSchema (fees : FeesPerInvoice) (currency : CurrencyEnum) : FeesSchema :=
  fees.map fun kv =>
    (kv.1, (kv.2.fees.getD []).map fun kv2 => (kv2.1, pureChildRule currency kv2.2))

/-! ## Validation semantics of the generated ruleset

Modelled from the spec: the validation behavior of the `yup` ruleset
(external library).  An `object().shape` schema validates each named field's
sub-schema against the candidate's value at that key; absent values pass
through defaults (`checked` undefined is falsy, `value` undefined defaults
to `0`), so a missing or shape-mismatched candidate branch passes.  The leaf
rule `simpleFeeSchema` accepts an unchecked leaf unconditionally and a
checked leaf iff `0.0000000000000001 ≤ value ≤ bound` (`.min` and `.max` are
inclusive; `.required` always holds since `value` is always present). -/

/-- Validation of one candidate leaf against a leaf rule. -/
def validateSimple (rule : SimpleFeeRule) (fee : FromFee) : Bool :=
  if fee.checked then
    decide (minZeroEpsilon ≤ fee.value) && decide (fee.value ≤ rule.bound)
  else true

/-- Validation of one leaf rule against the candidate leaf found (or not) at
key `k` of a candidate mapping: an absent leaf passes through defaults. -/
def validateAtKey (rule : SimpleFeeRule) (k : String) (l : List (String × FromFee)) : Bool :=
  match List.lookup k l with
  | some fee => validateSimple rule fee
  | none => true

/-- Validation of one fee-group rule against the candidate's node at the
same position (if any): a leaf rule constrains only a leaf node; a grouped
rule constrains only the leaves found under a grouped node's inner map. -/
def validateChild : FeeRule → Option FeeChild → Bool
  | .simple rule, some (.leaf fee) => validateSimple rule fee
  | .simple _, _ => true
  | .groupedRule rules, some (.grouped g) =>
      rules.all fun kr => validateAtKey kr.2 kr.1 (g.grouped.getD [])
  | .groupedRule _, _ => true

/-- Validation of a candidate tree against a generated ruleset: every leaf
rule is checked against the candidate node reached by the same keys. -/
def validateFees (s : FeesSchema) (cand : FeesPerInvoice) : Bool :=
  s.all fun ks =>
    ks.2.all fun kr =>
      validateChild kr.2
        ((List.lookup ks.1 cand).bind fun sc => List.lookup kr.1 (sc.fees.getD []))

/-! ## Specification-side tree walks and well-formedness -/

/-- The in-order list of all leaves under one fee-group node. -/
def childLeaves : FeeChild → List FromFee
  | .leaf fee => [fee]
  | .grouped g => (g.grouped.getD []).map Prod.snd

/-- The in-order list of all leaves of a fee tree: sub-invoice group order,
then fee-group order, then sub-group order. -/
def allLeaves (fees : FeesPerInvoice) : List FromFee :=
  fees.flatMap fun kv => (kv.2.fees.getD []).flatMap fun kv2 => childLeaves kv2.2

/-- The in-order list of leaves a serializer walk emits: the leaves whose
`checked` field is true, in tree-walk order. -/
def checkedLeaves (fees : FeesPerInvoice) : List FromFee :=
  (allLeaves fees).filter fun fee => fee.checked

/-- A fee-group node has its nested map populated. -/
def childWF : FeeChild → Bool
  | .leaf _ => true
  | .grouped g => g.grouped.isSome

/-- A sub-invoice group has its `fees` map populated, and so do its grouped
fee-groups. -/
def subWF (s : SubInvoiceFees) : Bool :=
  match s.fees with
  | none => false
  | some l => l.all fun kv => childWF kv.2

/-- A fee tree with every nested map populated (no `undefined` branch). -/
def feesWF (fees : FeesPerInvoice) : Bool :=
  fees.all fun kv => subWF kv.2

/-- Structure-preserving map over every leaf of one fee-group node. -/
def mapLeafChild (h : FromFee → FromFee) : FeeChild → FeeChild
  | .leaf fee => .leaf (h fee)
  | .grouped g => .grouped ⟨g.grouped.map fun l => l.map fun kv => (kv.1, h kv.2)⟩

/-- Structure-preserving map over every leaf of one sub-invoice group. -/
def mapSubInvoice (h : FromFee → FromFee) (s : SubInvoiceFees) : SubInvoiceFees :=
  ⟨s.fees.map fun l => l.map fun kv => (kv.1, mapLeafChild h kv.2)⟩

/-- Structure-preserving map over every leaf of a fee tree. -/
def mapFees (h : FromFee → FromFee) (fees : FeesPerInvoice) : FeesPerInvoice :=
  fees.map fun kv => (kv.1, mapSubInvoice h kv.2)

/-- What remains of a leaf after forgetting the user-editable fields. -/
def skelFee (fee : FromFee) : FromFee :=
  { fee with checked := false, value := 0 }

/-- The skeleton of a fee tree: everything except the user-editable `checked`
and `value` fields.  Two trees with equal skeletons have the same shape, the
same keys, and the same `id`/`maxAmount` on every leaf. -/
def skeleton (fees : FeesPerInvoice) : FeesPerInvoice :=
  mapFees skelFee fees

/-- A leaf with its `value` erased when unchecked. -/
def eraseUncheckedValuesFee (fee : FromFee) : FromFee :=
  if fee.checked then fee else { fee with value := 0 }

/-- A fee tree with every unchecked leaf's `value` erased. -/
def eraseUncheckedValues (fees : FeesPerInvoice) : FeesPerInvoice :=
  mapFees eraseUncheckedValuesFee fees

/-- A leaf with its `maxAmount` erased. -/
def eraseMaxAmountsFee (fee : FromFee) : FromFee :=
  { fee with maxAmount := 0 }

/-- A fee tree with every leaf's `maxAmount` erased. -/
def eraseMaxAmounts (fees : FeesPerInvoice) : FeesPerInvoice :=
  mapFees eraseMaxAmountsFee fees

/-- Keys of an association list are distinct. -/
def nodupKeys {α : Type} (l : List (String × α)) : Bool :=
  decide (l.map Prod.fst).Nodup

/-- Modelled JS-object key uniqueness for one fee-group node. -/
def nodupKeysChild : FeeChild → Bool
  | .leaf _ => true
  | .grouped g => nodupKeys (g.grouped.getD [])

/-- Modelled JS-object key uniqueness for one sub-invoice group. -/
def nodupKeysSub (s : SubInvoiceFees) : Bool :=
  nodupKeys (s.fees.getD []) && (s.fees.getD []).all fun kv => nodupKeysChild kv.2

/-- Modelled JS-object key uniqueness for a whole fee tree: every mapping of
the tree has distinct keys (automatic for a JavaScript object). -/
def nodupKeysF (fees : FeesPerInvoice) : Bool :=
  nodupKeys fees && fees.all fun kv => nodupKeysSub kv.2

/-- The shape of one fee-group node: `none` for a bare leaf, the ordered
sub-group keys for a grouped node. -/
def childShape : FeeChild → Option (List String)
  | .leaf _ => none
  | .grouped g => some ((g.grouped.getD []).map Prod.fst)

/-- The shape of a fee tree: its keys and the classification of every
fee-group node. -/
def treeShape (fees : FeesPerInvoice) : List (String × List (String × Option (List String))) :=
  fees.map fun kv =>
    (kv.1, (kv.2.fees.getD []).map fun kv2 => (kv2.1, childShape kv2.2))

/-- The shape of one generated rule, on the same footing as `childShape`. -/
def ruleShape : FeeRule → Option (List String)
  | .simple _ => none
  | .groupedRule rules => some (rules.map Prod.fst)

/-- The shape of a generated ruleset, on the same footing as `treeShape`. -/
def schemaShape (s : FeesSchema) : List (String × List (String × Option (List String))) :=
  s.map fun ks => (ks.1, ks.2.map fun kr => (kr.1, ruleShape kr.2))

/-- The leaf-level acceptance condition of the generated ruleset, phrased on
the leaf itself: unchecked passes; checked needs
`minZeroEpsilon ≤ value ≤ deserializeAmount maxAmount currency`. -/
def leafCond (currency : CurrencyEnum) (fee : FromFee) : Bool :=
  validateSimple (simpleFeeSchema fee.maxAmount currency) fee

/-- The condition `leafCond` over every leaf of one fee-group node. -/
def childCond (currency : CurrencyEnum) : FeeChild → Bool
  | .leaf fee => leafCond currency fee
  | .grouped g => (g.grouped.getD []).all fun kv => leafCond currency kv.2

/-- The list of major-unit amounts the serializer converts into `items`
entries, in emission order: the truthy add-on value (if any), then the
values of the checked leaves in tree-walk order. -/
def emittedValues (formValues : CreditNoteForm) : List ℚ :=
  (match formValues.addOnFee with
   | some a => if a.value = 0 then [] else [a.value]
   | none => []) ++
    (checkedLeaves (formValues.fees.getD [])).map FromFee.value

/-! ## Association-list and fold lemmas -/

theorem list_all_congr {α : Type} {l : List α} {f g : α → Bool}
    (h : ∀ x ∈ l, f x = g x) : l.all f = l.all g := by
  induction l with
  | nil => rfl
  | cons hd tl ih =>
      simp only [List.all_cons]
      rw [h hd (by simp), ih fun x hx => h x (by simp [hx])]

theorem lookup_cons_self {α : Type} (k : String) (v : α) (tl : List (String × α)) :
    List.lookup k ((k, v) :: tl) = some v := by
  simp [List.lookup]

theorem lookup_cons_ne {α : Type} {k : String} {hd : String × α}
    (tl : List (String × α)) (h : k ≠ hd.1) :
    List.lookup k (hd :: tl) = List.lookup k tl := by
  obtain ⟨k', v⟩ := hd
  simp only [List.lookup]
  rw [beq_eq_false_iff_ne.mpr h]

theorem lookup_map_value {α β : Type} (g : α → β) (k : String) (l : List (String × α)) :
    List.lookup k (l.map fun kv => (kv.1, g kv.2)) = (List.lookup k l).map g := by
  induction l with
  | nil => rfl
  | cons hd tl ih =>
      obtain ⟨k', v⟩ := hd
      by_cases h : k = k'
      · subst h; simp [List.lookup]
      · simp only [List.map_cons, List.lookup]
        rw [beq_eq_false_iff_ne.mpr h]
        exact ih

theorem filter_flatMap {α β : Type} (l : List α) (f : α → List β) (p : β → Bool) :
    (l.flatMap f).filter p = l.flatMap fun a => (f a).filter p := by
  induction l with
  | nil => rfl
  | cons hd tl ih => simp [List.flatMap_cons, List.filter_append, ih]

/-! ## Serializer tree-walk lemmas -/

theorem serializeGroupedItems_foldl (currency : CurrencyEnum)
    (l : List (String × FromFee)) (acc : List CreditNoteItemInput) :
    l.foldl
        (fun feeAcc kv =>
          if kv.2.checked then feeAcc ++ [toCreditNoteItem currency kv.2] else feeAcc)
        acc
      = acc ++ ((l.map Prod.snd).filter fun fee => fee.checked).map (toCreditNoteItem currency) := by
  induction l generalizing acc with
  | nil => simp
  | cons hd tl ih =>
      simp only [List.foldl_cons, List.map_cons, List.filter_cons]
      by_cases h : hd.2.checked
      · simp [h, ih, List.append_assoc]
      · simp [h, ih]

theorem serializeGroupedItems_eq (currency : CurrencyEnum) (l : List (String × FromFee)) :
    serializeGroupedItems currency l
      = ((l.map Prod.snd).filter fun fee => fee.checked).map (toCreditNoteItem currency) := by
  rw [serializeGroupedItems, serializeGroupedItems_foldl]
  simp

theorem serializeChildItems_wf (currency : CurrencyEnum) (ch : FeeChild)
    (h : childWF ch = true) :
    serializeChildItems currency ch
      = .ok (((childLeaves ch).filter fun fee => fee.checked).map (toCreditNoteItem currency)) := by
  cases ch with
  | leaf fee =>
      simp only [serializeChildItems, childLeaves]
      cases hc : fee.checked <;> simp [List.filter, hc, toCreditNoteItem]
  | grouped g =>
      cases hg : g.grouped with
      | none => simp [childWF, hg] at h
      | some gl => simp [serializeChildItems, hg, childLeaves, serializeGroupedItems_eq]

theorem serializeSubItems_wf (currency : CurrencyEnum) (l : List (String × FeeChild))
    (h : (l.all fun kv => childWF kv.2) = true) :
    serializeSubItems currency l
      = .ok (((l.flatMap fun kv => childLeaves kv.2).filter fun fee => fee.checked).map
          (toCreditNoteItem currency)) := by
  induction l with
  | nil => rfl
  | cons hd tl ih =>
      rw [List.all_cons, Bool.and_eq_true] at h
      rw [serializeSubItems, serializeChildItems_wf currency hd.2 h.1, ih h.2]
      simp [List.flatMap_cons, List.filter_append]

theorem serializeFeesItems_wf (currency : CurrencyEnum) (fees : FeesPerInvoice)
    (h : feesWF fees = true) :
    serializeFeesItems currency fees
      = .ok ((checkedLeaves fees).map (toCreditNoteItem currency)) := by
  induction fees with
  | nil => rfl
  | cons hd tl ih =>
      rw [feesWF, List.all_cons, Bool.and_eq_true] at h
      obtain ⟨h1, h2⟩ := h
      rw [subWF] at h1
      cases hfs : hd.2.fees with
      | none => rw [hfs] at h1; exact absurd h1 (by simp)
      | some subChilds =>
          rw [hfs] at h1
          simp only at h1
          simp only [serializeFeesItems, hfs,
            serializeSubItems_wf currency subChilds h1, ih h2]
          simp only [checkedLeaves, allLeaves, List.flatMap_cons, List.filter_append,
            List.map_append, hfs, Option.getD_some]

theorem serializeChildItems_ok_wf (currency : CurrencyEnum) (ch : FeeChild)
    (t : List CreditNoteItemInput) (h : serializeChildItems currency ch = .ok t) :
    childWF ch = true := by
  cases ch with
  | leaf fee => rfl
  | grouped g =>
      cases hg : g.grouped with
      | none => rw [serializeChildItems, hg] at h; exact absurd h (by simp)
      | some gl => simp [childWF, hg]

theorem serializeSubItems_ok_wf (currency : CurrencyEnum) (l : List (String × FeeChild))
    (t : List CreditNoteItemInput) (h : serializeSubItems currency l = .ok t) :
    (l.all fun kv => childWF kv.2) = true := by
  induction l generalizing t with
  | nil => rfl
  | cons hd tl ih =>
      rw [serializeSubItems] at h
      cases hc : serializeChildItems currency hd.2 with
      | error e => rw [hc] at h; exact absurd h (by simp)
      | ok items =>
          rw [hc] at h
          cases hrest : serializeSubItems currency tl with
          | error e => rw [hrest] at h; exact absurd h (by simp)
          | ok restItems =>
              rw [List.all_cons, Bool.and_eq_true]
              exact ⟨serializeChildItems_ok_wf currency hd.2 items hc, ih restItems hrest⟩

theorem serializeFeesItems_ok_wf (currency : CurrencyEnum) (fees : FeesPerInvoice)
    (t : List CreditNoteItemInput) (h : serializeFeesItems currency fees = .ok t) :
    feesWF fees = true := by
  induction fees generalizing t with
  | nil => rfl
  | cons hd tl ih =>
      rw [serializeFeesItems] at h
      cases hfs : hd.2.fees with
      | none => rw [hfs] at h; exact absurd h (by simp)
      | some subChilds =>
          rw [hfs] at h
          simp only at h
          cases hsub : serializeSubItems currency subChilds with
          | error e => rw [hsub] at h; exact absurd h (by simp)
          | ok items =>
              rw [hsub] at h
              cases hrest : serializeFeesItems currency tl with
              | error e => rw [hrest] at h; exact absurd h (by simp)
              | ok restItems =>
                  rw [feesWF, List.all_cons, Bool.and_eq_true]
                  refine ⟨?_, ih restItems hrest⟩
                  rw [subWF, hfs]
                  exact serializeSubItems_ok_wf currency subChilds items hsub

/-! ## Ruleset-generation lemmas -/

theorem generateChildRule_wf (currency : CurrencyEnum) (ch : FeeChild)
    (h : childWF ch = true) :
    generateChildRule currency ch = .ok (pureChildRule currency ch) := by
  cases ch with
  | leaf fee => rfl
  | grouped g =>
      cases hg : g.grouped with
      | none => simp [childWF, hg] at h
      | some gl => simp [generateChildRule, pureChildRule, hg]

theorem generateSubSchema_wf (currency : CurrencyEnum) (l : List (String × FeeChild))
    (h : (l.all fun kv => childWF kv.2) = true) :
    generateSubSchema currency l
      = .ok (l.map fun kv => (kv.1, pureChildRule currency kv.2)) := by
  induction l with
  | nil => rfl
  | cons hd tl ih =>
      rw [List.all_cons, Bool.and_eq_true] at h
      rw [generateSubSchema, generateChildRule_wf currency hd.2 h.1, ih h.2]
      rfl

theorem generateFeesSchema_wf (currency : CurrencyEnum) (fees : FeesPerInvoice)
    (h : feesWF fees = true) :
    generateFeesSchema fees currency = .ok (pureSchema fees currency) := by
  rw [generateFeesSchema]
  induction fees with
  | nil => rfl
  | cons hd tl ih =>
      rw [feesWF, List.all_cons, Bool.and_eq_true] at h
      obtain ⟨h1, h2⟩ := h
      rw [subWF] at h1
      cases hfs : hd.2.fees with
      | none => rw [hfs] at h1; exact absurd h1 (by simp)
      | some subChilds =>
          rw [hfs] at h1
          simp only at h1
          simp only [generateFeesSchema.walk, hfs,
            generateSubSchema_wf currency subChilds h1, ih h2]
          simp [pureSchema, hfs]

/-! ## Leaf-map (noninterference) lemmas -/

theorem serializeGroupedItems_mapLeaf (currency : CurrencyEnum) {h : FromFee → FromFee}
    (hc : ∀ fee, (h fee).checked = fee.checked)
    (hiv : ∀ fee, fee.checked = true → (h fee).id = fee.id ∧ (h fee).value = fee.value)
    (gl : List (String × FromFee)) :
    serializeGroupedItems currency (gl.map fun kv => (kv.1, h kv.2))
      = serializeGroupedItems currency gl := by
  rw [serializeGroupedItems_eq, serializeGroupedItems_eq]
  induction gl with
  | nil => rfl
  | cons hd tl ih =>
      cases hch : hd.2.checked
      · simp [hc hd.2, hch]
        simpa using ih
      · obtain ⟨hid, hval⟩ := hiv hd.2 hch
        simp [hc hd.2, hch, toCreditNoteItem, hid, hval]
        simpa using ih

theorem serializeChildItems_mapLeaf (currency : CurrencyEnum) {h : FromFee → FromFee}
    (hc : ∀ fee, (h fee).checked = fee.checked)
    (hiv : ∀ fee, fee.checked = true → (h fee).id = fee.id ∧ (h fee).value = fee.value)
    (ch : FeeChild) :
    serializeChildItems currency (mapLeafChild h ch) = serializeChildItems currency ch := by
  cases ch with
  | leaf fee =>
      simp only [mapLeafChild, serializeChildItems, hc fee]
      cases hch : fee.checked
      · rfl
      · obtain ⟨hid, hval⟩ := hiv fee hch
        simp [toCreditNoteItem, hid, hval]
  | grouped g =>
      cases hg : g.grouped with
      | none => simp [mapLeafChild, serializeChildItems, hg]
      | some gl =>
          simp only [mapLeafChild, serializeChildItems, hg, Option.map_some']
          rw [serializeGroupedItems_mapLeaf currency hc hiv]

theorem serializeSubItems_mapLeaf (currency : CurrencyEnum) {h : FromFee → FromFee}
    (hc : ∀ fee, (h fee).checked = fee.checked)
    (hiv : ∀ fee, fee.checked = true → (h fee).id = fee.id ∧ (h fee).value = fee.value)
    (l : List (String × FeeChild)) :
    serializeSubItems currency (l.map fun kv => (kv.1, mapLeafChild h kv.2))
      = serializeSubItems currency l := by
  induction l with
  | nil => rfl
  | cons hd tl ih =>
      simp only [List.map_cons, serializeSubItems,
        serializeChildItems_mapLeaf currency hc hiv hd.2, ih]

theorem serializeFeesItems_mapFees (currency : CurrencyEnum) {h : FromFee → FromFee}
    (hc : ∀ fee, (h fee).checked = fee.checked)
    (hiv : ∀ fee, fee.checked = true → (h fee).id = fee.id ∧ (h fee).value = fee.value)
    (fees : FeesPerInvoice) :
    serializeFeesItems currency (mapFees h fees) = serializeFeesItems currency fees := by
  induction fees with
  | nil => rfl
  | cons hd tl ih =>
      simp only [mapFees, mapSubInvoice] at ih ⊢
      simp only [List.map_cons, serializeFeesItems]
      cases hfs : hd.2.fees with
      | none => rfl
      | some subChilds =>
          simp only [hfs, Option.map_some', serializeSubItems_mapLeaf currency hc hiv]
          rw [ih]

theorem validateSimple_mapLeaf {h : FromFee → FromFee}
    (hc : ∀ fee, (h fee).checked = fee.checked)
    (hv : ∀ fee, fee.checked = true → (h fee).value = fee.value)
    (rule : SimpleFeeRule) (fee : FromFee) :
    validateSimple rule (h fee) = validateSimple rule fee := by
  rw [validateSimple, validateSimple, hc fee]
  cases hch : fee.checked
  · simp
  · simp [hv fee hch]

theorem validateAtKey_mapLeaf {h : FromFee → FromFee}
    (hc : ∀ fee, (h fee).checked = fee.checked)
    (hv : ∀ fee, fee.checked = true → (h fee).value = fee.value)
    (rule : SimpleFeeRule) (k : String) (l : List (String × FromFee)) :
    validateAtKey rule k (l.map fun kv => (kv.1, h kv.2)) = validateAtKey rule k l := by
  rw [validateAtKey, validateAtKey, lookup_map_value]
  cases List.lookup k l with
  | none => rfl
  | some fee =>
      simp only [Option.map_some']
      exact validateSimple_mapLeaf hc hv rule fee

theorem validateChild_mapLeaf {h : FromFee → FromFee}
    (hc : ∀ fee, (h fee).checked = fee.checked)
    (hv : ∀ fee, fee.checked = true → (h fee).value = fee.value)
    (r : FeeRule) (ch : FeeChild) :
    validateChild r (some (mapLeafChild h ch)) = validateChild r (some ch) := by
  cases r with
  | simple rule =>
      cases ch with
      | leaf fee => exact validateSimple_mapLeaf hc hv rule fee
      | grouped g => rfl
  | groupedRule rules =>
      cases ch with
      | leaf fee => rfl
      | grouped g =>
          simp only [mapLeafChild, validateChild]
          apply list_all_congr
          intro kr _
          cases hg : g.grouped with
          | none => rfl
          | some gl =>
              simp only [Option.map_some', Option.getD_some]
              exact validateAtKey_mapLeaf hc hv kr.2 kr.1 gl

theorem validateFees_mapFees {h : FromFee → FromFee}
    (hc : ∀ fee, (h fee).checked = fee.checked)
    (hv : ∀ fee, fee.checked = true → (h fee).value = fee.value)
    (s : FeesSchema) (cand : FeesPerInvoice) :
    validateFees s (mapFees h cand) = validateFees s cand := by
  rw [validateFees, validateFees]
  apply list_all_congr
  intro ks _
  apply list_all_congr
  intro kr _
  have hlu : List.lookup ks.1 (mapFees h cand)
      = (List.lookup ks.1 cand).map (mapSubInvoice h) := by
    rw [mapFees, lookup_map_value]
  rw [hlu]
  cases hsc : List.lookup ks.1 cand with
  | none => rfl
  | some sc =>
      simp only [Option.map_some', Option.some_bind]
      cases hfs : sc.fees with
      | none => simp [mapSubInvoice, hfs]
      | some l =>
          simp only [mapSubInvoice, hfs, Option.map_some', Option.getD_some]
          rw [lookup_map_value]
          cases hch : List.lookup kr.1 l with
          | none => rfl
          | some ch =>
              simp only [Option.map_some']
              exact validateChild_mapLeaf hc hv kr.2 ch

/-! ## Correspondence between the generated ruleset and a candidate tree -/

theorem skelFee_eq_maxAmount {f1 f2 : FromFee} (h : skelFee f1 = skelFee f2) :
    f1.maxAmount = f2.maxAmount := by
  have := congrArg FromFee.maxAmount h
  simpa [skelFee] using this

theorem validate_grouped_level (currency : CurrencyEnum)
    (initG candG : List (String × FromFee))
    (hsk : (candG.map fun kv => (kv.1, skelFee kv.2))
            = initG.map fun kv => (kv.1, skelFee kv.2))
    (hnd : (initG.map Prod.fst).Nodup) :
    ((initG.map fun kv => (kv.1, simpleFeeSchema kv.2.maxAmount currency)).all fun kr =>
        validateAtKey kr.2 kr.1 candG)
      = candG.all fun kv => leafCond currency kv.2 := by
  induction initG generalizing candG with
  | nil =>
      have hc : candG = [] := by simpa using hsk
      subst hc; rfl
  | cons ihd itl ih =>
      cases candG with
      | nil => simp at hsk
      | cons chd ctl =>
          simp only [List.map_cons, List.cons.injEq, Prod.mk.injEq] at hsk
          obtain ⟨⟨hk, hsf⟩, htl⟩ := hsk
          rw [List.map_cons, List.nodup_cons] at hnd
          obtain ⟨hnotin, hndtl⟩ := hnd
          rw [List.map_cons, List.all_cons, List.all_cons]
          have hhead : validateAtKey (simpleFeeSchema ihd.2.maxAmount currency) ihd.1
              (chd :: ctl) = leafCond currency chd.2 := by
            rw [validateAtKey]
            obtain ⟨ck, cf⟩ := chd
            simp only at hk hsf
            subst hk
            rw [lookup_cons_self]
            rw [leafCond, skelFee_eq_maxAmount hsf]
          have htail :
              ((itl.map fun kv => (kv.1, simpleFeeSchema kv.2.maxAmount currency)).all fun kr =>
                  validateAtKey kr.2 kr.1 (chd :: ctl))
                = ctl.all fun kv => leafCond currency kv.2 := by
            rw [← ih ctl htl hndtl]
            apply list_all_congr
            intro kr hkr
            obtain ⟨kv, hkv, hkreq⟩ := List.mem_map.mp hkr
            have hne : kr.1 ≠ chd.1 := by
              rw [← hkreq]
              intro hcontra
              apply hnotin
              rw [← hk, ← hcontra]
              exact List.mem_map.mpr ⟨kv, hkv, rfl⟩
            rw [validateAtKey, validateAtKey, lookup_cons_ne ctl hne]
          rw [hhead, htail]

theorem nodupKeys_eq_true {α : Type} {l : List (String × α)} (h : nodupKeys l = true) :
    (l.map Prod.fst).Nodup :=
  of_decide_eq_true h

theorem validateChild_pureChildRule (currency : CurrencyEnum) (ich cch : FeeChild)
    (hs : mapLeafChild skelFee cch = mapLeafChild skelFee ich)
    (hnd : nodupKeysChild ich = true) :
    validateChild (pureChildRule currency ich) (some cch) = childCond currency cch := by
  cases ich with
  | leaf fi =>
      cases cch with
      | leaf fc =>
          simp only [mapLeafChild, FeeChild.leaf.injEq] at hs
          simp only [pureChildRule, validateChild, childCond, leafCond,
            skelFee_eq_maxAmount hs]
      | grouped g => simp [mapLeafChild] at hs
  | grouped gi =>
      cases cch with
      | leaf fc => simp [mapLeafChild] at hs
      | grouped gc =>
          simp only [mapLeafChild, FeeChild.grouped.injEq, GroupedFee.mk.injEq] at hs
          simp only [pureChildRule, validateChild, childCond]
          apply validate_grouped_level currency
          · cases hgi : gi.grouped with
            | none =>
                cases hgc : gc.grouped with
                | none => rfl
                | some gl => rw [hgi, hgc] at hs; exact absurd hs (by simp)
            | some gil =>
                cases hgc : gc.grouped with
                | none => rw [hgi, hgc] at hs; exact absurd hs (by simp)
                | some gcl =>
                    rw [hgi, hgc] at hs
                    simp only [Option.map_some', Option.some.injEq] at hs
                    simpa using hs
          · rw [nodupKeysChild] at hnd
            exact nodupKeys_eq_true hnd

theorem validate_sub_level (currency : CurrencyEnum)
    (initFees candFees : List (String × FeeChild))
    (hsk : (candFees.map fun kv => (kv.1, mapLeafChild skelFee kv.2))
            = initFees.map fun kv => (kv.1, mapLeafChild skelFee kv.2))
    (hnd : (initFees.map Prod.fst).Nodup)
    (hndc : ∀ kv ∈ initFees, nodupKeysChild kv.2 = true) :
    ((initFees.map fun kv => (kv.1, pureChildRule currency kv.2)).all fun kr =>
        validateChild kr.2 (List.lookup kr.1 candFees))
      = candFees.all fun kv => childCond currency kv.2 := by
  induction initFees generalizing candFees with
  | nil =>
      have hc : candFees = [] := by simpa using hsk
      subst hc; rfl
  | cons ihd itl ih =>
      cases candFees with
      | nil => simp at hsk
      | cons chd ctl =>
          simp only [List.map_cons, List.cons.injEq, Prod.mk.injEq] at hsk
          obtain ⟨⟨hk, hsf⟩, htl⟩ := hsk
          rw [List.map_cons, List.nodup_cons] at hnd
          obtain ⟨hnotin, hndtl⟩ := hnd
          rw [List.map_cons, List.all_cons, List.all_cons]
          have hhead : validateChild (pureChildRule currency ihd.2)
              (List.lookup ihd.1 (chd :: ctl)) = childCond currency chd.2 := by
            obtain ⟨ck, cch⟩ := chd
            simp only at hk hsf
            subst hk
            rw [lookup_cons_self]
            exact validateChild_pureChildRule currency ihd.2 cch hsf
              (hndc ihd (by simp))
          have htail :
              ((itl.map fun kv => (kv.1, pureChildRule currency kv.2)).all fun kr =>
                  validateChild kr.2 (List.lookup kr.1 (chd :: ctl)))
                = ctl.all fun kv => childCond currency kv.2 := by
            rw [← ih ctl htl hndtl fun kv hkv => hndc kv (List.mem_cons_of_mem ihd hkv)]
            apply list_all_congr
            intro kr hkr
            obtain ⟨kv, hkv, hkreq⟩ := List.mem_map.mp hkr
            have hne : kr.1 ≠ chd.1 := by
              rw [← hkreq]
              intro hcontra
              apply hnotin
              rw [← hk, ← hcontra]
              exact List.mem_map.mpr ⟨kv, hkv, rfl⟩
            rw [lookup_cons_ne ctl hne]
          rw [hhead, htail]

theorem mapSubInvoice_skel_fees {s1 s2 : SubInvoiceFees}
    (h : mapSubInvoice skelFee s1 = mapSubInvoice skelFee s2) :
    ((s1.fees.getD []).map fun kv => (kv.1, mapLeafChild skelFee kv.2))
      = (s2.fees.getD []).map fun kv => (kv.1, mapLeafChild skelFee kv.2) := by
  simp only [mapSubInvoice, SubInvoiceFees.mk.injEq] at h
  cases h1 : s1.fees with
  | none =>
      cases h2 : s2.fees with
      | none => rfl
      | some l2 => rw [h1, h2] at h; exact absurd h (by simp)
  | some l1 =>
      cases h2 : s2.fees with
      | none => rw [h1, h2] at h; exact absurd h (by simp)
      | some l2 =>
          rw [h1, h2] at h
          simp only [Option.map_some', Option.some.injEq] at h
          simpa using h

theorem validate_top_level (currency : CurrencyEnum) (init cand : FeesPerInvoice)
    (hsk : (cand.map fun kv => (kv.1, mapSubInvoice skelFee kv.2))
            = init.map fun kv => (kv.1, mapSubInvoice skelFee kv.2))
    (hnd : nodupKeysF init = true) :
    validateFees (pureSchema init currency) cand
      = cand.all fun kv => (kv.2.fees.getD []).all fun kv2 => childCond currency kv2.2 := by
  rw [validateFees]
  induction init generalizing cand with
  | nil =>
      have hc : cand = [] := by simpa using hsk
      subst hc; rfl
  | cons ihd itl ih =>
      rw [nodupKeysF, Bool.and_eq_true] at hnd
      obtain ⟨hk1, hk2⟩ := hnd
      rw [List.all_cons, Bool.and_eq_true] at hk2
      obtain ⟨hsub1, hsubtl⟩ := hk2
      have hk1' : (List.map Prod.fst (ihd :: itl)).Nodup := nodupKeys_eq_true hk1
      rw [List.map_cons, List.nodup_cons] at hk1'
      obtain ⟨hnotin, hndtl⟩ := hk1'
      cases cand with
      | nil => simp at hsk
      | cons chd ctl =>
          simp only [List.map_cons, List.cons.injEq, Prod.mk.injEq] at hsk
          obtain ⟨⟨hkkey, hsubskel⟩, htl⟩ := hsk
          simp only [pureSchema, List.map_cons, List.all_cons]
          rw [nodupKeysSub, Bool.and_eq_true] at hsub1
          obtain ⟨hsub1a, hsub1b⟩ := hsub1
          have hhead :
              (((ihd.2.fees.getD []).map fun kv2 => (kv2.1, pureChildRule currency kv2.2)).all
                  fun kr =>
                    validateChild kr.2
                      ((List.lookup ihd.1 (chd :: ctl)).bind fun sc =>
                        List.lookup kr.1 (sc.fees.getD [])))
                = (chd.2.fees.getD []).all fun kv2 => childCond currency kv2.2 := by
            have hlu : List.lookup ihd.1 (chd :: ctl) = some chd.2 := by
              obtain ⟨ck, csub⟩ := chd
              simp only at hkkey hsubskel
              subst hkkey
              exact lookup_cons_self ihd.1 csub ctl
            rw [hlu]
            simp only [Option.some_bind]
            exact validate_sub_level currency (ihd.2.fees.getD []) (chd.2.fees.getD [])
              (mapSubInvoice_skel_fees hsubskel) (nodupKeys_eq_true hsub1a)
              fun kv hkv => List.all_eq_true.mp hsub1b kv hkv
          have htail :
              ((itl.map fun kv =>
                    (kv.1, (kv.2.fees.getD []).map fun kv2 =>
                      (kv2.1, pureChildRule currency kv2.2))).all
                  fun ks =>
                    ks.2.all fun kr =>
                      validateChild kr.2
                        ((List.lookup ks.1 (chd :: ctl)).bind fun sc =>
                          List.lookup kr.1 (sc.fees.getD [])))
                = ctl.all fun kv =>
                    (kv.2.fees.getD []).all fun kv2 => childCond currency kv2.2 := by
            have hndtl_full : nodupKeysF itl = true := by
              rw [nodupKeysF, Bool.and_eq_true]
              exact ⟨decide_eq_true hndtl, hsubtl⟩
            have hrec := ih ctl htl hndtl_full
            rw [pureSchema] at hrec
            rw [← hrec]
            apply list_all_congr
            intro ks hks
            obtain ⟨kv, hkv, hkreq⟩ := List.mem_map.mp hks
            have hne : ks.1 ≠ chd.1 := by
              rw [← hkreq]
              intro hcontra
              apply hnotin
              rw [← hkkey, ← hcontra]
              exact List.mem_map.mpr ⟨kv, hkv, rfl⟩
            rw [lookup_cons_ne ctl hne]
          rw [hhead, htail]

/-! ## Glue lemmas for the claims -/

theorem leafCond_eq_true_iff (currency : CurrencyEnum) (fee : FromFee) :
    leafCond currency fee = true ↔
      (fee.checked = true →
        minZeroEpsilon ≤ fee.value ∧ fee.value ≤ deserializeAmount fee.maxAmount currency) := by
  cases hch : fee.checked <;>
    simp [leafCond, validateSimple, simpleFeeSchema, hch]

theorem childCond_eq_true_iff (currency : CurrencyEnum) (ch : FeeChild) :
    childCond currency ch = true ↔
      ∀ fee ∈ childLeaves ch, fee.checked = true →
        minZeroEpsilon ≤ fee.value ∧ fee.value ≤ deserializeAmount fee.maxAmount currency := by
  cases ch with
  | leaf fee => simp [childCond, childLeaves, leafCond_eq_true_iff]
  | grouped g =>
      simp only [childCond, childLeaves, List.all_eq_true, leafCond_eq_true_iff,
        List.mem_map]
      constructor
      · rintro h fee ⟨kv, hkv, rfl⟩
        exact h kv hkv
      · intro h kv hkv
        exact h kv.2 ⟨kv, hkv, rfl⟩

theorem validate_iff_allLeaves (currency : CurrencyEnum) (init cand : FeesPerInvoice)
    (hsk : (cand.map fun kv => (kv.1, mapSubInvoice skelFee kv.2))
            = init.map fun kv => (kv.1, mapSubInvoice skelFee kv.2))
    (hnd : nodupKeysF init = true) :
    (validateFees (pureSchema init currency) cand = true ↔
      ∀ fee ∈ allLeaves cand, fee.checked = true →
        minZeroEpsilon ≤ fee.value ∧ fee.value ≤ deserializeAmount fee.maxAmount currency) := by
  rw [validate_top_level currency init cand hsk hnd]
  simp only [List.all_eq_true, allLeaves, List.mem_flatMap, childCond_eq_true_iff]
  constructor
  · rintro h fee ⟨kv, hkv, kv2, hkv2, hfee⟩
    exact h kv hkv kv2 hkv2 fee hfee
  · intro h kv hkv kv2 hkv2 fee hfee
    exact h fee ⟨kv, hkv, kv2, hkv2, hfee⟩

theorem serializeAmount_zero (currency : CurrencyEnum) : serializeAmount 0 currency = 0 := by
  simp [serializeAmount]

theorem serializeAmount_intCast_deserializeAmount (n : ℤ) (currency : CurrencyEnum) :
    serializeAmount (deserializeAmount (n : ℚ) currency) currency = n := by
  rw [serializeAmount, deserializeAmount, div_mul_cancel₀]
  · exact round_intCast n
  · exact pow_ne_zero _ (by norm_num)

theorem deserializeAmount_serializeAmount {v : ℚ} {n : ℤ} (currency : CurrencyEnum)
    (hv : v * (10 : ℚ) ^ getCurrencyPrecision currency = (n : ℚ)) :
    deserializeAmount ((serializeAmount v currency : ℤ) : ℚ) currency = v := by
  rw [serializeAmount, deserializeAmount, hv, round_intCast, ← hv]
  exact mul_div_cancel_right₀ v (pow_ne_zero _ (by norm_num))

theorem serializeCreditNoteInput_ok (invoiceId : String) (formValues : CreditNoteForm)
    (currency : CurrencyEnum) (h : feesWF (formValues.fees.getD []) = true) :
    serializeCreditNoteInput invoiceId formValues currency =
      .ok
        { invoiceId := invoiceId
          reason := formValues.reason
          description := formValues.description
          creditAmountCents := payBackAmount formValues.payBack CreditTypeEnum.credit currency
          refundAmountCents := payBackAmount formValues.payBack CreditTypeEnum.refund currency
          items := serializeAddOnItems formValues.addOnFee currency ++
            (checkedLeaves (formValues.fees.getD [])).map (toCreditNoteItem currency) } := by
  rw [serializeCreditNoteInput, serializeFeesItems_wf currency _ h]

theorem serializeCreditNoteInput_ok_inv (invoiceId : String) (formValues : CreditNoteForm)
    (currency : CurrencyEnum) (out : CreateCreditNoteInput)
    (h : serializeCreditNoteInput invoiceId formValues currency = .ok out) :
    out =
      { invoiceId := invoiceId
        reason := formValues.reason
        description := formValues.description
        creditAmountCents := payBackAmount formValues.payBack CreditTypeEnum.credit currency
        refundAmountCents := payBackAmount formValues.payBack CreditTypeEnum.refund currency
        items := serializeAddOnItems formValues.addOnFee currency ++
          (checkedLeaves (formValues.fees.getD [])).map (toCreditNoteItem currency) } := by
  rw [serializeCreditNoteInput] at h
  cases hf : serializeFeesItems currency (formValues.fees.getD []) with
  | error e => rw [hf] at h; exact absurd h (by simp)
  | ok treeItems =>
      have hwf : feesWF (formValues.fees.getD []) = true :=
        serializeFeesItems_ok_wf currency _ treeItems hf
      have hmap := serializeFeesItems_wf currency (formValues.fees.getD []) hwf
      rw [hf] at hmap
      simp only [Except.ok.injEq] at hmap
      rw [hf] at h
      simp only [Except.ok.injEq] at h
      rw [← h, hmap]

theorem schemaShape_pureSchema (fees : FeesPerInvoice) (currency : CurrencyEnum) :
    schemaShape (pureSchema fees currency) = treeShape fees := by
  rw [schemaShape, pureSchema, treeShape, List.map_map]
  apply List.map_congr_left
  intro kv _
  simp only [Function.comp]
  congr 1
  rw [List.map_map]
  apply List.map_congr_left
  intro kv2 _
  simp only [Function.comp]
  congr 1
  cases kv2.2 with
  | leaf fee => rfl
  | grouped g => simp [pureChildRule, ruleShape, childShape, List.map_map]

/-! ## Claim theorems -/

/-- Claim C1. For every fee tree (with populated nested maps, as built by the
UI), the serializer succeeds and its `items` list is the add-on prefix
followed by exactly one entry per leaf with `checked = true` — carrying that
leaf's `id` as `feeId` — and no entry for any `checked = false` leaf, in
deterministic tree-walk order (sub-invoice group, then fee-group, then
sub-group), as enumerated by `allLeaves`. -/
theorem C1_serialize_items_checked_leaves (invoiceId : String)
    (formValues : CreditNoteForm) (currency : CurrencyEnum)
    (h : feesWF (formValues.fees.getD []) = true) :
    ∃ out, serializeCreditNoteInput invoiceId formValues currency = Except.ok out ∧
      out.items = serializeAddOnItems formValues.addOnFee currency ++
        ((allLeaves (formValues.fees.getD [])).filter fun fee => fee.checked).map
          (toCreditNoteItem currency) :=
  ⟨_, serializeCreditNoteInput_ok invoiceId formValues currency h, rfl⟩

/-- Claim C2, amended. Against the ruleset generated from the initial tree,
a candidate tree that shares the initial tree's skeleton validates
successfully iff every checked leaf has
`minZeroEpsilon ≤ value ≤ deserializeAmount maxAmount currency`; the lower
bound is the rule's epsilon `0.0000000000000001`, not a strict `0 <` bound. -/
theorem C2_amended_validation_iff (currency : CurrencyEnum)
    (init cand : FeesPerInvoice) (h1 : feesWF init = true)
    (h2 : skeleton cand = skeleton init) (h3 : nodupKeysF init = true) :
    ∃ s, generateFeesSchema init currency = Except.ok s ∧
      (validateFees s cand = true ↔
        ∀ fee ∈ allLeaves cand, fee.checked = true →
          minZeroEpsilon ≤ fee.value ∧
            fee.value ≤ deserializeAmount fee.maxAmount currency) := by
  refine ⟨pureSchema init currency, generateFeesSchema_wf currency init h1, ?_⟩
  rw [skeleton, skeleton, mapFees, mapFees] at h2
  exact validate_iff_allLeaves currency init cand h2 h3

/-- A one-leaf initial tree for exercising the validator's lower bound. -/
def epsInit : FeesPerInvoice :=
  [("sub1", ⟨some [("g1", FeeChild.leaf ⟨"f1", false, 0, 100⟩)]⟩)]

/-- The same tree with the leaf checked and `value = 10⁻¹⁷`: strictly
positive and below the deserialized `maxAmount`, yet below the rule's
epsilon. -/
def epsCand : FeesPerInvoice :=
  [("sub1", ⟨some [("g1", FeeChild.leaf ⟨"f1", true, 1 / 10 ^ 17, 100⟩)]⟩)]

/-- Counterexample to claim C2 as stated. The candidate `epsCand` satisfies the claim's
acceptance condition — its only checked leaf has `0 < value` and
`value ≤ deserializeAmount maxAmount` — yet validation against the ruleset
generated from `epsInit` fails, because the rule's minimum is the epsilon
`0.0000000000000001`, not a strict zero bound. -/
theorem C2_counterexample :
    generateFeesSchema epsInit CurrencyEnum.usd
        = Except.ok (pureSchema epsInit CurrencyEnum.usd) ∧
    validateFees (pureSchema epsInit CurrencyEnum.usd) epsCand = false ∧
    allLeaves epsCand = [⟨"f1", true, 1 / 10 ^ 17, 100⟩] ∧
    (0 : ℚ) < 1 / 10 ^ 17 ∧
    (1 / 10 ^ 17 : ℚ) ≤ deserializeAmount 100 CurrencyEnum.usd := by
  refine ⟨rfl, ?_, rfl, by norm_num, ?_⟩
  · simp [validateFees, pureSchema, pureChildRule, epsInit, epsCand, validateChild,
      validateSimple, simpleFeeSchema, List.lookup]
    intro hle
    exact absurd hle (by norm_num [minZeroEpsilon])
  · norm_num [deserializeAmount, getCurrencyPrecision]

/-- A fee tree whose sub-invoice group has an `undefined` `fees` map. -/
def malformedSubTree : FeesPerInvoice := [("sub1", ⟨none⟩)]

/-- A fee tree whose grouped fee-group has an `undefined` `grouped` map. -/
def malformedGroupedTree : FeesPerInvoice :=
  [("sub1", ⟨some [("g1", FeeChild.grouped ⟨none⟩)]⟩)]

/-- A credit-note form carrying the given fee tree and nothing else. -/
def formWithFees (fees : FeesPerInvoice) : CreditNoteForm :=
  ⟨"creditNoteReason", none, none, some fees, none⟩

/-- Claim C3. Contrary to the claim, a missing nested map is *not* treated as
empty: both the serializer and the ruleset generation throw the JavaScript
`TypeError` of `Object.keys(undefined)` — at the sub-invoice level
(`Object.keys(subChild?.fees)`) and at the grouped level
(`Object.keys(grouped)`) — instead of emitting no items and no rules. -/
theorem C3_malformed_tree_throws :
    serializeCreditNoteInput "inv1" (formWithFees malformedSubTree) CurrencyEnum.usd
        = Except.error typeErrorMessage ∧
    serializeCreditNoteInput "inv1" (formWithFees malformedGroupedTree) CurrencyEnum.usd
        = Except.error typeErrorMessage ∧
    generateFeesSchema malformedSubTree CurrencyEnum.usd
        = Except.error typeErrorMessage ∧
    generateFeesSchema malformedGroupedTree CurrencyEnum.usd
        = Except.error typeErrorMessage :=
  ⟨rfl, rfl, rfl, rfl⟩

/-- Claim C4. Every `amountCents` the serializer emits is
`round(value * 10 ^ precision(currency))` of the corresponding source value
(add-on first, then checked leaves in walk order); the emitted minor-unit
integer is recoverable by reversing the same currency's precision, and a
value expressible at that precision round-trips exactly. -/
theorem C4_amount_cents_round (invoiceId : String) (formValues : CreditNoteForm)
    (currency : CurrencyEnum) (out : CreateCreditNoteInput)
    (h : serializeCreditNoteInput invoiceId formValues currency = Except.ok out) :
    out.items.map CreditNoteItemInput.amountCents =
      (emittedValues formValues).map
        (fun v => round (v * (10 : ℚ) ^ getCurrencyPrecision currency)) ∧
    (∀ item ∈ out.items,
      serializeAmount (deserializeAmount (item.amountCents : ℚ) currency) currency
        = item.amountCents) ∧
    (∀ v : ℚ, ∀ n : ℤ, v * (10 : ℚ) ^ getCurrencyPrecision currency = (n : ℚ) →
      deserializeAmount ((serializeAmount v currency : ℤ) : ℚ) currency = v) := by
  rw [serializeCreditNoteInput_ok_inv invoiceId formValues currency out h]
  refine ⟨?_, ?_, ?_⟩
  · simp only [emittedValues, List.map_append, List.map_map]
    congr 1
    cases hao : formValues.addOnFee with
    | none => rfl
    | some a =>
        by_cases hz : a.value = 0 <;>
          simp [serializeAddOnItems, hz, serializeAmount]
  · intro item _
    exact serializeAmount_intCast_deserializeAmount item.amountCents currency
  · intro v n hv
    exact deserializeAmount_serializeAmount currency hv

/-- Claim C5. For every well-formed fee tree, ruleset generation succeeds and
the generated ruleset has exactly the tree's shape (same sub-invoice keys,
same fee-group keys, bare-leaf rules exactly at bare leaves and grouped
rules with the same sub-group keys exactly at grouped nodes), while the
serializer's walk of the same tree succeeds and emits exactly the checked
subset of the leaves both walks visit: the two walks share the
leaf-vs-grouped discrimination and stay structurally congruent. -/
theorem C5_walks_structurally_congruent (fees : FeesPerInvoice)
    (currency : CurrencyEnum) (h : feesWF fees = true) :
    ∃ s, generateFeesSchema fees currency = Except.ok s ∧
      schemaShape s = treeShape fees ∧
      serializeFeesItems currency fees =
        Except.ok (((allLeaves fees).filter fun fee => fee.checked).map
          (toCreditNoteItem currency)) :=
  ⟨pureSchema fees currency, generateFeesSchema_wf currency fees h,
    schemaShape_pureSchema fees currency, serializeFeesItems_wf currency fees h⟩

/-- Claim C6. In any successful serializer output, `creditAmountCents` is the
minor-unit conversion of the first pay-back entry of type `credit` and
`refundAmountCents` that of the first entry of type `refund`; each is `0`
when the pay-back array is absent or holds no entry of the matching type
(the conversion of the `0` default), and each is determined by its own
entry alone, independently of the other type's presence. -/
theorem C6_payback_amounts (invoiceId : String) (formValues : CreditNoteForm)
    (currency : CurrencyEnum) (out : CreateCreditNoteInput)
    (h : serializeCreditNoteInput invoiceId formValues currency = Except.ok out) :
    (formValues.payBack = none →
      out.creditAmountCents = 0 ∧ out.refundAmountCents = 0) ∧
    (∀ pb, formValues.payBack = some pb →
      (((∀ e ∈ pb, e.type ≠ CreditTypeEnum.credit) → out.creditAmountCents = 0) ∧
        (∀ e, pb.find? (fun p => p.type == CreditTypeEnum.credit) = some e →
          out.creditAmountCents = serializeAmount e.value currency) ∧
        ((∀ e ∈ pb, e.type ≠ CreditTypeEnum.refund) → out.refundAmountCents = 0) ∧
        (∀ e, pb.find? (fun p => p.type == CreditTypeEnum.refund) = some e →
          out.refundAmountCents = serializeAmount e.value currency))) := by
  rw [serializeCreditNoteInput_ok_inv invoiceId formValues currency out h]
  constructor
  · intro hpb
    simp [payBackAmount, hpb]
  · intro pb hpb
    refine ⟨?_, ?_, ?_, ?_⟩
    · intro hnone
      have hfind : pb.find? (fun p => p.type == CreditTypeEnum.credit) = none :=
        List.find?_eq_none.mpr fun e he => by simpa using hnone e he
      simp [payBackAmount, hpb, hfind, serializeAmount_zero]
    · intro e hfind
      simp [payBackAmount, hpb, hfind]
    · intro hnone
      have hfind : pb.find? (fun p => p.type == CreditTypeEnum.refund) = none :=
        List.find?_eq_none.mpr fun e he => by simpa using hnone e he
      simp [payBackAmount, hpb, hfind, serializeAmount_zero]
    · intro e hfind
      simp [payBackAmount, hpb, hfind]

/-- Claim C7. When the optional add-on fee is absent or its value is `0` (the
only falsy rational), no add-on item is emitted and `items` is exactly the
tree walk's list; when it is present with a nonzero value, exactly one
add-on item `{feeId := addOnFee.id, amountCents := convert(addOnFee.value)}`
is emitted as the first element, with the tree-walk items following in
unchanged order. -/
theorem C7_addon_emission (invoiceId : String) (formValues : CreditNoteForm)
    (currency : CurrencyEnum) (h : feesWF (formValues.fees.getD []) = true) :
    ∃ out treeItems,
      serializeCreditNoteInput invoiceId formValues currency = Except.ok out ∧
      serializeFeesItems currency (formValues.fees.getD []) = Except.ok treeItems ∧
      (formValues.addOnFee = none → out.items = treeItems) ∧
      (∀ a, formValues.addOnFee = some a → a.value = 0 → out.items = treeItems) ∧
      (∀ a, formValues.addOnFee = some a → a.value ≠ 0 →
        out.items = ⟨a.id, serializeAmount a.value currency⟩ :: treeItems) := by
  refine ⟨_, _, serializeCreditNoteInput_ok invoiceId formValues currency h,
    serializeFeesItems_wf currency _ h, ?_, ?_, ?_⟩
  · intro hao
    simp [serializeAddOnItems, hao]
  · intro a hao hz
    simp [serializeAddOnItems, hao, hz]
  · intro a hao hz
    simp [serializeAddOnItems, hao, hz]

/-- Claim C8. Unchecked leaves' values never influence observable results: two
fee trees whose checked leaves and structure agree (they are equal after
erasing unchecked values) serialize to identical outputs, and two such
candidate trees receive identical validation results against any ruleset. -/
theorem C8_unchecked_value_noninterference (invoiceId : String)
    (currency : CurrencyEnum) (reason : String) (description : Option String)
    (payBack : Option (List PayBackDetails)) (addOnFee : Option FromFee)
    (fees1 fees2 : FeesPerInvoice) (s : FeesSchema) (cand1 cand2 : FeesPerInvoice)
    (h1 : eraseUncheckedValues fees1 = eraseUncheckedValues fees2)
    (h2 : eraseUncheckedValues cand1 = eraseUncheckedValues cand2) :
    serializeCreditNoteInput invoiceId
        ⟨reason, description, payBack, some fees1, addOnFee⟩ currency
      = serializeCreditNoteInput invoiceId
          ⟨reason, description, payBack, some fees2, addOnFee⟩ currency ∧
    validateFees s cand1 = validateFees s cand2 := by
  have hc : ∀ fee : FromFee,
      (eraseUncheckedValuesFee fee).checked
        = fee.checked := by
    intro fee
    by_cases hch : fee.checked <;> simp [eraseUncheckedValuesFee, hch]
  have hiv : ∀ fee : FromFee, fee.checked = true →
      (eraseUncheckedValuesFee fee).id = fee.id ∧
      (eraseUncheckedValuesFee fee).value
        = fee.value := by
    intro fee hch
    simp [eraseUncheckedValuesFee, hch]
  have hv : ∀ fee : FromFee, fee.checked = true →
      (eraseUncheckedValuesFee fee).value
        = fee.value :=
    fun fee hch => (hiv fee hch).2
  rw [eraseUncheckedValues, eraseUncheckedValues] at h1 h2
  constructor
  · have hs : serializeFeesItems currency fees1 = serializeFeesItems currency fees2 := by
      calc serializeFeesItems currency fees1
          = serializeFeesItems currency
              (mapFees eraseUncheckedValuesFee
                fees1) :=
            (serializeFeesItems_mapFees currency hc hiv fees1).symm
        _ = serializeFeesItems currency
              (mapFees eraseUncheckedValuesFee
                fees2) := by rw [h1]
        _ = serializeFeesItems currency fees2 :=
            serializeFeesItems_mapFees currency hc hiv fees2
    rw [serializeCreditNoteInput, serializeCreditNoteInput]
    simp only [Option.getD_some]
    rw [hs]
  · calc validateFees s cand1
        = validateFees s
            (mapFees eraseUncheckedValuesFee
              cand1) :=
          (validateFees_mapFees hc hv s cand1).symm
      _ = validateFees s
            (mapFees eraseUncheckedValuesFee
              cand2) := by rw [h2]
      _ = validateFees s cand2 := validateFees_mapFees hc hv s cand2

/-- Claim C9. The serializer never filters checked leaves by value: every leaf
with `checked = true` yields its item even when its value is `0`, in which
case the item is `{feeId := leaf.id, amountCents := 0}` (only the add-on fee
is suppressed at value `0`; excluding zero-valued checked leaves is left to
the external validation gate). -/
theorem C9_zero_value_checked_leaf_emitted (invoiceId : String)
    (formValues : CreditNoteForm) (currency : CurrencyEnum)
    (h : feesWF (formValues.fees.getD []) = true) :
    ∃ out, serializeCreditNoteInput invoiceId formValues currency = Except.ok out ∧
      ∀ fee ∈ allLeaves (formValues.fees.getD []), fee.checked = true →
        toCreditNoteItem currency fee ∈ out.items ∧
        (fee.value = 0 → (⟨fee.id, 0⟩ : CreditNoteItemInput) ∈ out.items) := by
  refine ⟨_, serializeCreditNoteInput_ok invoiceId formValues currency h, ?_⟩
  intro fee hmem hch
  have hmem2 : toCreditNoteItem currency fee ∈
      (checkedLeaves (formValues.fees.getD [])).map (toCreditNoteItem currency) :=
    List.mem_map_of_mem _ (List.mem_filter.mpr ⟨hmem, hch⟩)
  constructor
  · exact List.mem_append_right _ hmem2
  · intro hz
    have hit : toCreditNoteItem currency fee = ⟨fee.id, 0⟩ := by
      rw [toCreditNoteItem, hz, serializeAmount_zero]
    rw [← hit]
    exact List.mem_append_right _ hmem2

/-- Claim C10. The validation of a candidate tree reads only its leaves'
`checked` and `value` fields: the `maxAmount` bound of every rule was taken
from the initial tree at generation time, so two candidates equal after
erasing their `maxAmount` fields validate identically against the ruleset
generated from any initial tree. -/
theorem C10_maxamount_noninterference (init : FeesPerInvoice)
    (currency : CurrencyEnum) (s : FeesSchema) (cand1 cand2 : FeesPerInvoice)
    (hgen : generateFeesSchema init currency = Except.ok s)
    (h : eraseMaxAmounts cand1 = eraseMaxAmounts cand2) :
    validateFees s cand1 = validateFees s cand2 := by
  have hc : ∀ fee : FromFee,
      (eraseMaxAmountsFee fee).checked = fee.checked :=
    fun _ => rfl
  have hv : ∀ fee : FromFee, fee.checked = true →
      (eraseMaxAmountsFee fee).value = fee.value :=
    fun _ _ => rfl
  rw [eraseMaxAmounts, eraseMaxAmounts] at h
  calc validateFees s cand1
      = validateFees s (mapFees eraseMaxAmountsFee cand1) :=
        (validateFees_mapFees hc hv s cand1).symm
    _ = validateFees s (mapFees eraseMaxAmountsFee cand2) := by
        rw [h]
    _ = validateFees s cand2 := validateFees_mapFees hc hv s cand2

/-! ## Concrete inputs and witnesses -/

/-- A representative well-formed fee tree: a checked bare leaf, an unchecked
bare leaf, and a grouped fee-group with one checked and one unchecked
sub-group leaf. -/
def sampleTree : FeesPerInvoice :=
  [("sub1", ⟨some
      [("g1", FeeChild.leaf ⟨"f1", true, 10, 5000⟩),
       ("g2", FeeChild.leaf ⟨"f2", false, 3, 2000⟩),
       ("g3", FeeChild.grouped ⟨some
          [("s1", ⟨"f3", true, 2, 1000⟩),
           ("s2", ⟨"f4", false, 1, 1000⟩)]⟩)]⟩)]

/-- A form over `sampleTree` with a credit/refund pay-back split. -/
def sampleForm : CreditNoteForm :=
  ⟨"creditNoteReason", some "duplicated charge",
    some [⟨CreditTypeEnum.credit, 5⟩, ⟨CreditTypeEnum.refund, 3⟩],
    some sampleTree, none⟩

/-- The payload the serializer produces for `sampleForm`. -/
def sampleOut : CreateCreditNoteInput :=
  { invoiceId := "inv1"
    reason := sampleForm.reason
    description := sampleForm.description
    creditAmountCents := payBackAmount sampleForm.payBack CreditTypeEnum.credit
      CurrencyEnum.usd
    refundAmountCents := payBackAmount sampleForm.payBack CreditTypeEnum.refund
      CurrencyEnum.usd
    items := serializeAddOnItems sampleForm.addOnFee CurrencyEnum.usd ++
      (checkedLeaves (sampleForm.fees.getD [])).map (toCreditNoteItem CurrencyEnum.usd) }

theorem C1_witness :
    ∃ out, serializeCreditNoteInput "inv1" sampleForm CurrencyEnum.usd = Except.ok out ∧
      out.items = serializeAddOnItems sampleForm.addOnFee CurrencyEnum.usd ++
        ((allLeaves (sampleForm.fees.getD [])).filter fun fee => fee.checked).map
          (toCreditNoteItem CurrencyEnum.usd) :=
  C1_serialize_items_checked_leaves "inv1" sampleForm CurrencyEnum.usd rfl

theorem C2_witness :
    ∃ s, generateFeesSchema epsInit CurrencyEnum.usd = Except.ok s ∧
      (validateFees s epsCand = true ↔
        ∀ fee ∈ allLeaves epsCand, fee.checked = true →
          minZeroEpsilon ≤ fee.value ∧
            fee.value ≤ deserializeAmount fee.maxAmount CurrencyEnum.usd) :=
  C2_amended_validation_iff CurrencyEnum.usd epsInit epsCand rfl rfl (by decide)

theorem C4_witness :
    serializeCreditNoteInput "inv1" sampleForm CurrencyEnum.usd = Except.ok sampleOut ∧
    (sampleOut.items.map CreditNoteItemInput.amountCents =
        (emittedValues sampleForm).map
          (fun v => round (v * (10 : ℚ) ^ getCurrencyPrecision CurrencyEnum.usd)) ∧
      (∀ item ∈ sampleOut.items,
        serializeAmount (deserializeAmount (item.amountCents : ℚ) CurrencyEnum.usd)
          CurrencyEnum.usd = item.amountCents) ∧
      (∀ v : ℚ, ∀ n : ℤ,
        v * (10 : ℚ) ^ getCurrencyPrecision CurrencyEnum.usd = (n : ℚ) →
        deserializeAmount ((serializeAmount v CurrencyEnum.usd : ℤ) : ℚ)
          CurrencyEnum.usd = v)) :=
  have hok : serializeCreditNoteInput "inv1" sampleForm CurrencyEnum.usd
      = Except.ok sampleOut :=
    serializeCreditNoteInput_ok "inv1" sampleForm CurrencyEnum.usd rfl
  ⟨hok, C4_amount_cents_round "inv1" sampleForm CurrencyEnum.usd sampleOut hok⟩

theorem C5_witness :
    ∃ s, generateFeesSchema sampleTree CurrencyEnum.usd = Except.ok s ∧
      schemaShape s = treeShape sampleTree ∧
      serializeFeesItems CurrencyEnum.usd sampleTree =
        Except.ok (((allLeaves sampleTree).filter fun fee => fee.checked).map
          (toCreditNoteItem CurrencyEnum.usd)) :=
  C5_walks_structurally_congruent sampleTree CurrencyEnum.usd rfl

theorem C6_witness :
    serializeCreditNoteInput "inv1" sampleForm CurrencyEnum.usd = Except.ok sampleOut ∧
    ((sampleForm.payBack = none →
        sampleOut.creditAmountCents = 0 ∧ sampleOut.refundAmountCents = 0) ∧
      (∀ pb, sampleForm.payBack = some pb →
        (((∀ e ∈ pb, e.type ≠ CreditTypeEnum.credit) →
            sampleOut.creditAmountCents = 0) ∧
          (∀ e, pb.find? (fun p => p.type == CreditTypeEnum.credit) = some e →
            sampleOut.creditAmountCents = serializeAmount e.value CurrencyEnum.usd) ∧
          ((∀ e ∈ pb, e.type ≠ CreditTypeEnum.refund) →
            sampleOut.refundAmountCents = 0) ∧
          (∀ e, pb.find? (fun p => p.type == CreditTypeEnum.refund) = some e →
            sampleOut.refundAmountCents = serializeAmount e.value CurrencyEnum.usd)))) :=
  have hok : serializeCreditNoteInput "inv1" sampleForm CurrencyEnum.usd
      = Except.ok sampleOut :=
    serializeCreditNoteInput_ok "inv1" sampleForm CurrencyEnum.usd rfl
  ⟨hok, C6_payback_amounts "inv1" sampleForm CurrencyEnum.usd sampleOut hok⟩

/-- A form over `sampleTree` with a nonzero add-on fee. -/
def addOnForm : CreditNoteForm :=
  ⟨"creditNoteReason", none, none, some sampleTree, some ⟨"addon1", true, 7, 0⟩⟩

theorem C7_witness :
    ∃ out treeItems,
      serializeCreditNoteInput "inv1" addOnForm CurrencyEnum.usd = Except.ok out ∧
      serializeFeesItems CurrencyEnum.usd (addOnForm.fees.getD [])
          = Except.ok treeItems ∧
      (addOnForm.addOnFee = none → out.items = treeItems) ∧
      (∀ a, addOnForm.addOnFee = some a → a.value = 0 → out.items = treeItems) ∧
      (∀ a, addOnForm.addOnFee = some a → a.value ≠ 0 →
        out.items = ⟨a.id, serializeAmount a.value CurrencyEnum.usd⟩ :: treeItems) :=
  C7_addon_emission "inv1" addOnForm CurrencyEnum.usd rfl

/-- Trees that differ only in the value of an unchecked leaf. -/
def c8fees1 : FeesPerInvoice :=
  [("sub1", ⟨some [("g1", FeeChild.leaf ⟨"f1", false, 7, 100⟩)]⟩)]

/-- Trees that differ only in the value of an unchecked leaf. -/
def c8fees2 : FeesPerInvoice :=
  [("sub1", ⟨some [("g1", FeeChild.leaf ⟨"f1", false, 9, 100⟩)]⟩)]

theorem C8_witness :
    serializeCreditNoteInput "inv1"
        ⟨"creditNoteReason", none, none, some c8fees1, none⟩ CurrencyEnum.usd
      = serializeCreditNoteInput "inv1"
          ⟨"creditNoteReason", none, none, some c8fees2, none⟩ CurrencyEnum.usd ∧
    validateFees (pureSchema c8fees1 CurrencyEnum.usd) c8fees1
      = validateFees (pureSchema c8fees1 CurrencyEnum.usd) c8fees2 :=
  C8_unchecked_value_noninterference "inv1" CurrencyEnum.usd "creditNoteReason" none
    none none c8fees1 c8fees2 (pureSchema c8fees1 CurrencyEnum.usd) c8fees1 c8fees2
    rfl rfl

/-- A tree whose only leaf is checked with value `0`. -/
def zeroValueTree : FeesPerInvoice :=
  [("sub1", ⟨some [("g1", FeeChild.leaf ⟨"f1", true, 0, 500⟩)]⟩)]

/-- A form over `zeroValueTree`. -/
def zeroValueForm : CreditNoteForm :=
  ⟨"creditNoteReason", none, none, some zeroValueTree, none⟩

theorem C9_witness :
    ∃ out, serializeCreditNoteInput "inv1" zeroValueForm CurrencyEnum.usd
        = Except.ok out ∧
      ∀ fee ∈ allLeaves (zeroValueForm.fees.getD []), fee.checked = true →
        toCreditNoteItem CurrencyEnum.usd fee ∈ out.items ∧
        (fee.value = 0 → (⟨fee.id, 0⟩ : CreditNoteItemInput) ∈ out.items) :=
  C9_zero_value_checked_leaf_emitted "inv1" zeroValueForm CurrencyEnum.usd rfl

/-- Candidates that differ only in a leaf's `maxAmount`. -/
def c10cand1 : FeesPerInvoice :=
  [("sub1", ⟨some [("g1", FeeChild.leaf ⟨"f1", true, 5, 100⟩)]⟩)]

/-- Candidates that differ only in a leaf's `maxAmount`. -/
def c10cand2 : FeesPerInvoice :=
  [("sub1", ⟨some [("g1", FeeChild.leaf ⟨"f1", true, 5, 999⟩)]⟩)]

theorem C10_witness :
    validateFees (pureSchema sampleTree CurrencyEnum.usd) c10cand1
      = validateFees (pureSchema sampleTree CurrencyEnum.usd) c10cand2 :=
  C10_maxamount_noninterference sampleTree CurrencyEnum.usd
    (pureSchema sampleTree CurrencyEnum.usd) c10cand1 c10cand2
    (generateFeesSchema_wf CurrencyEnum.usd sampleTree rfl) rfl
